import Mathlib

/-!
Verification of the artifact-generation pipeline of `git-commit-share`
(`cli.js`), against its natural-language specification.

Strings are modelled as `List Char` (`Str`).  Each JavaScript global
single-character `String.replace` is modelled by `replaceChar`; regex
replacement of a literal pattern (`safeInline`) by `replaceAllBy`; the
DOM by a rooted tree (`DomNode`); the subprocess environment and
filesystem effects of `main` by an explicit `Env`/`RunOutcome` model.
-/

/-- Strings of the JavaScript program, modelled as lists of characters. -/
abbrev Str := List Char

/-- Model of the JavaScript global single-character replacement
`s.replace(/c/g, r)`: every occurrence of the character `c` is replaced
by the string `r`, left to right, and replacement text is not rescanned
by the same pass. -/
def replaceChar (c : Char) (r : Str) : Str → Str
  | [] => []
  | x :: xs => (if x = c then r else [x]) ++ replaceChar c r xs

/-- The diff-escaping chain of `generateHtml` (cli.js lines 382-386):
`diffOutput.replace(/\\/g,'\\\\').replace(/'/g,"\\'").replace(/\n/g,'\\n').replace(/\r/g,'\\r')`,
backslash first, producing the body of a one-line single-quoted
JavaScript string literal. -/
def escapedDiff (diffOutput : Str) : Str :=
  replaceChar '\r' ['\\', 'r']
    (replaceChar '\n' ['\\', 'n']
      (replaceChar '\'' ['\\', '\'']
        (replaceChar '\\' ['\\', '\\'] diffOutput)))

/-- Value of a single-character JavaScript escape sequence `\c` inside a
string literal: the named control-character escapes take their control
value, and any other character escapes to itself (this covers `\\` and
`\'`).  The numeric `\x`/`\u` forms, which the escaper never emits, are
not modelled. -/
def jsEscChar (c : Char) : Char :=
  if c = 'n' then '\n'
  else if c = 'r' then '\r'
  else if c = 't' then '\t'
  else if c = 'b' then '\x08'
  else if c = 'f' then '\x0c'
  else if c = 'v' then '\x0b'
  else if c = '0' then '\x00'
  else c

/-- Modelled from the spec: decoding of the body of a one-line
single-quoted JavaScript string literal ("decoded as a single-quoted
one-line string literal").  Returns `none` when the text is not a valid
one-line body: a raw newline, raw carriage return, or unescaped single
quote or a trailing lone backslash all make it invalid. -/
def decodeSingleQuoted : Str → Option Str
  | [] => some []
  | c :: rest =>
    if c = '\\' then
      match rest with
      | [] => none
      | e :: rest2 =>
        if e = '\n' ∨ e = '\r' then none
        else (decodeSingleQuoted rest2).map (jsEscChar e :: ·)
    else if c = '\'' ∨ c = '\n' ∨ c = '\r' then none
    else (decodeSingleQuoted rest).map (c :: ·)

/-- Per-character view of the diff-escaping chain: what `escapedDiff`
emits for one input character. -/
def escDiffChar (c : Char) : Str :=
  if c = '\\' then ['\\', '\\']
  else if c = '\'' then ['\\', '\'']
  else if c = '\n' then ['\\', 'n']
  else if c = '\r' then ['\\', 'r']
  else [c]

/-- The HTML-escaping function of cli.js (lines 345-352): replaces the
five HTML metacharacters with their entity forms, ampersand first. -/
def escapeHtml (str : Str) : Str :=
  replaceChar '\'' ("&#39;".data)
    (replaceChar '"' ("&quot;".data)
      (replaceChar '>' ("&gt;".data)
        (replaceChar '<' ("&lt;".data)
          (replaceChar '&' ("&amp;".data) str))))

/-- Per-character view of `escapeHtml`: what it emits for one input
character. -/
def escHtmlChar (c : Char) : Str :=
  if c = '&' then "&amp;".data
  else if c = '<' then "&lt;".data
  else if c = '>' then "&gt;".data
  else if c = '"' then "&quot;".data
  else if c = '\'' then "&#39;".data
  else [c]

/-- Modelled from the spec: strict decoding of HTML body text in which
every metacharacter must be entity-encoded ("renders as literal text,
not markup, when parsed as HTML").  An ampersand must begin one of the
five produced entities, and a raw `<`, `>`, `"` or `'` is rejected, so
`decodeHtmlText t = some s` certifies that `t` contains no metacharacter
outside a produced entity and that `t` parses back to the text `s`. -/
def decodeHtmlText : Str → Option Str
  | [] => some []
  | c :: rest =>
    if c = '&' then
      match rest with
      | 'a' :: 'm' :: 'p' :: ';' :: r => (decodeHtmlText r).map ('&' :: ·)
      | 'l' :: 't' :: ';' :: r => (decodeHtmlText r).map ('<' :: ·)
      | 'g' :: 't' :: ';' :: r => (decodeHtmlText r).map ('>' :: ·)
      | 'q' :: 'u' :: 'o' :: 't' :: ';' :: r => (decodeHtmlText r).map ('"' :: ·)
      | '#' :: '3' :: '9' :: ';' :: r => (decodeHtmlText r).map ('\'' :: ·)
      | _ => none
    else if c = '<' ∨ c = '>' ∨ c = '"' ∨ c = '\'' then none
    else (decodeHtmlText rest).map (c :: ·)

/-- Case-insensitive character comparison, modelling the `i` flag of the
JavaScript regexes in `safeInline` (ASCII letters fold; a non-ASCII
character is unchanged by `Char.toLower`, matching the non-Unicode-mode
canonicalisation rule that never folds a non-ASCII character onto an
ASCII one). -/
def charEqCI (p x : Char) : Bool := p.toLower == x.toLower

/-- Exact character comparison (plain string search). -/
def charEqEx (p x : Char) : Bool := p == x

/-- Does `l` begin with the pattern `pat`, comparing characters with
`eq`? -/
def startsWithBy (eq : Char → Char → Bool) : Str → Str → Bool
  | [], _ => true
  | _ :: _, [] => false
  | p :: ps, x :: xs => eq p x && startsWithBy eq ps xs

/-- Does the pattern `pat` occur (under `eq`) anywhere in `l`? -/
def containsBy (eq : Char → Char → Bool) (pat : Str) : Str → Bool
  | [] => startsWithBy eq pat []
  | x :: xs => startsWithBy eq pat (x :: xs) || containsBy eq pat xs

/-- Worker for `replaceAllBy`.  The first `Nat` argument counts
characters still to be skipped (the tail of a match already consumed);
the skip encodes `List.drop` so that the recursion stays structural. -/
def replaceAllByAux (eq : Char → Char → Bool) (pat rep : Str) : Nat → Str → Str
  | _, [] => []
  | 0, x :: xs =>
    if startsWithBy eq pat (x :: xs) then
      rep ++ replaceAllByAux eq pat rep (pat.length - 1) xs
    else x :: replaceAllByAux eq pat rep 0 xs
  | n + 1, _ :: xs => replaceAllByAux eq pat rep n xs

/-- Model of the JavaScript global replacement of a literal pattern,
`s.replace(/pat/g…, rep)`: matches are found left to right,
non-overlapping, and replacement text is not rescanned. -/
def replaceAllBy (eq : Char → Char → Bool) (pat rep l : Str) : Str :=
  replaceAllByAux eq pat rep 0 l

/-- The `safeInline` function of cli.js (lines 373-378): empty content
maps to the empty string; for kind `script` every occurrence of
`</script>` (case-insensitive) is replaced by `<\/script>`; for kind
`style` likewise with `</style>`; any other kind passes through. -/
def safeInline (content : Str) (kind : String) : Str :=
  if content = [] then []
  else if kind = "script" then
    replaceAllBy charEqCI ("</script>".data) ("<\\/script>".data) content
  else if kind = "style" then
    replaceAllBy charEqCI ("</style>".data) ("<\\/style>".data) content
  else content

/-- A DOM node of the rendered document: an element with a tag name and
children, or a text node.  (Attributes play no role in the script-count
property and are omitted.) -/
inductive DomNode where
  | element : String → List DomNode → DomNode
  | text : String → DomNode

/-- Model of the finalization step of `generateStaticHtml` (cli.js
lines 484-485): `document.querySelectorAll('script').forEach(s => s.remove())`.
Every element whose tag is `script` is removed together with its
subtree; all other nodes are kept and their children are cleaned
recursively. -/
def removeScripts : List DomNode → List DomNode
  | [] => []
  | DomNode.text s :: rest => DomNode.text s :: removeScripts rest
  | DomNode.element tag kids :: rest =>
    if tag = "script" then removeScripts rest
    else DomNode.element tag (removeScripts kids) :: removeScripts rest

/-- Number of script elements anywhere in a forest of DOM nodes. -/
def countScripts : List DomNode → Nat
  | [] => 0
  | DomNode.text _ :: rest => countScripts rest
  | DomNode.element tag kids :: rest =>
    (if tag = "script" then 1 else 0) + countScripts kids + countScripts rest

/-- Model of the bounded-wait polling loop of `generateStaticHtml`
(cli.js lines 470-482): `check` resolves when the diff container has
rendered child content (`rendered t`), gives up when more than 5000 ms
have elapsed since `start`, and otherwise re-schedules itself 25 ms
later (`setTimeout(check, 25)`).  `t` is the current clock value at a
check; the function returns the clock value at which the promise
resolves. -/
def pollTime (rendered : Nat → Bool) (start : Nat) (t : Nat) : Nat :=
  if rendered t then t
  else if t - start > 5000 then t
  else pollTime rendered start (t + 25)
termination_by start + 5001 - t
decreasing_by omega

/-- JavaScript `String.prototype.trim`: remove whitespace from both ends. -/
def trimChars (l : Str) : Str :=
  ((l.dropWhile Char.isWhitespace).reverse.dropWhile Char.isWhitespace).reverse

/-- Template text of `generateHtml` before `${commit}` in the title
(cli.js lines 394-400), beginning with the newline that follows the
opening backtick. -/
def tpl0 : String := "\n<!DOCTYPE html>\n<html lang=\"en\">\n<head>\n  <meta charset=\"UTF-8\">\n  <meta name=\"viewport\" content=\"width=device-width, initial-scale=1.0\">\n  <title>Commit "

/-- Template text between `${commit}` and `${safeInline(cssHighlight,'style')}`. -/
def tpl1 : String := " Diff</title>\n  <style>"

/-- Template text between the two inlined stylesheets. -/
def tpl2 : String := "</style>\n  <style>"

/-- Template text from the second stylesheet to `${commit}` in the h1
(the fixed page CSS, cli.js lines 402-425). -/
def tpl3 : String := "</style>\n  <style>\n    body \x7b\n      font-family: Arial, sans-serif;\n      margin: 20px;\n    \x7d\n    h1 \x7b\n      color: #333;\n    \x7d\n    .commit-meta \x7b\n      background: #f6f8fa;\n      border: 1px solid #d0d7de;\n      border-radius: 6px;\n      padding: 12px 16px;\n      margin-top: 8px;\n      white-space: pre-wrap; /* preserve newlines in message */\n    \x7d\n    #diff-container \x7b\n      margin-top: 20px;\n    \x7d\n  </style>\n</head>\n<body>\n  <h1>Changes in Commit "

/-- Template text between `${commit}` in the h1 and the message region. -/
def tpl4 : String := "</h1>\n  <div class=\"commit-meta\" id=\"commit-message\">"

/-- Template text between the message region and `${safeInline(jsDiff2Html,'script')}`. -/
def tpl5 : String := "</div>\n  <div id=\"diff-container\"></div>\n  <script>"

/-- Template text between the inlined script and `${escapedDiff}`
(the bootstrap script head, cli.js lines 428-431). -/
def tpl6 : String := "</script>\n  <script>\n    document.addEventListener(\x27DOMContentLoaded\x27, function() \x7b\n      const diffString = \x27"

/-- Template text after `${escapedDiff}` to the closing backtick
(the bootstrap configuration and calls, cli.js lines 431-454), ending
with the newline and indent that precede the backtick. -/
def tpl7 : String := "\x27\n      const targetElement = document.getElementById(\x27diff-container\x27)\n      const configuration = \x7b\n        drawFileList: true,\n        matching: \x27lines\x27,\n        outputFormat: \x27side-by-side\x27,\n        highlight: true,\n        synchronisedScroll: true,\n        fileListToggle: true,\n        fileListStartVisible: false,\n        fileContentToggle: true,\n        stickyFileHeaders: true,\n        colorScheme: \x27auto\x27\n      \x7d\n\n      const diff2htmlUi = new Diff2HtmlUI(targetElement, diffString, configuration)\n      diff2htmlUi.draw()\n      diff2htmlUi.highlightCode()\n      diff2htmlUi.synchronisedScroll()\n    \x7d)\n  </script>\n</body>\n</html>\n  "

/-- `tpl0` without its first two characters (used to state the trimmed
normal form of the document). -/
def tpl0core : String := "!DOCTYPE html>\n<html lang=\"en\">\n<head>\n  <meta charset=\"UTF-8\">\n  <meta name=\"viewport\" content=\"width=device-width, initial-scale=1.0\">\n  <title>Commit "

/-- `tpl7` without its trailing `>` and final whitespace (used to state
the trimmed normal form of the document). -/
def tpl7core : String := "\x27\n      const targetElement = document.getElementById(\x27diff-container\x27)\n      const configuration = \x7b\n        drawFileList: true,\n        matching: \x27lines\x27,\n        outputFormat: \x27side-by-side\x27,\n        highlight: true,\n        synchronisedScroll: true,\n        fileListToggle: true,\n        fileListStartVisible: false,\n        fileContentToggle: true,\n        stickyFileHeaders: true,\n        colorScheme: \x27auto\x27\n      \x7d\n\n      const diff2htmlUi = new Diff2HtmlUI(targetElement, diffString, configuration)\n      diff2htmlUi.draw()\n      diff2htmlUi.highlightCode()\n      diff2htmlUi.synchronisedScroll()\n    \x7d)\n  </script>\n</body>\n</html"

/-- The message region `${escapedMessage || \x27No commit message\x27}`
(cli.js line 426): the escaped commit message when non-empty (JavaScript
`||` takes the right operand exactly on the empty string), else the
fixed placeholder. -/
def messageRegion (commitMessage : Str) : Str :=
  if escapeHtml commitMessage = [] then "No commit message".data
  else escapeHtml commitMessage

/-- The `generateHtml` function of cli.js (lines 380-455), as a pure
function of the commit reference, commit message, diff output and the
three asset texts (which cli.js reads from the local `libs` cache):
the template literal with its interpolations, then `.trim()`. -/
def generateHtml (commit commitMessage diffOutput
    cssHighlight cssDiff2Html jsDiff2Html : Str) : Str :=
  trimChars (tpl0.data ++ commit ++ tpl1.data ++ safeInline cssHighlight "style"
    ++ tpl2.data ++ safeInline cssDiff2Html "style" ++ tpl3.data ++ commit
    ++ tpl4.data ++ messageRegion commitMessage ++ tpl5.data
    ++ safeInline jsDiff2Html "script" ++ tpl6.data ++ escapedDiff diffOutput
    ++ tpl7.data)

/-- `pat` occurs verbatim as a contiguous substring of `l`. -/
def occursIn (pat l : Str) : Prop := ∃ s t, l = s ++ pat ++ t

/-- Serialization of a DOM forest back to markup (model of
`dom.serialize()`;  attributes are not modelled, text nodes are
entity-escaped). -/
def serializeDom : List DomNode → Str
  | [] => []
  | DomNode.text s :: rest => escapeHtml s.data ++ serializeDom rest
  | DomNode.element tag kids :: rest =>
    '<' :: tag.data ++ ['>'] ++ serializeDom kids
      ++ '<' :: '/' :: tag.data ++ ['>'] ++ serializeDom rest

/-- The effect environment of a run: `runCmd` models `execSync` (stdout
on success, a thrown error otherwise), `readLib` models
`fs.readFileSync` inside the `libs` directory, and `render` models the
jsdom execution of the interactive document (the DOM rendered into the
page, or a thrown error). -/
structure GitEnv where
  runCmd : String → Except String String
  readLib : String → Except String String
  render : Str → Except String (List DomNode)

/-- The command run by `getLastCommitHash` (cli.js line 299). -/
def gitLogOnelineCmd : String := "git log --oneline -1"

/-- The command run by `getCommitMessage` (cli.js line 311). -/
def getCommitMessageCmd (commit : String) : String :=
  "git log -1 --format=%B " ++ commit

/-- The command run by `getCommitDiff` (cli.js lines 324-336): the fixed
flag list joined with single spaces. -/
def getCommitDiffCmd (commit : String) : String :=
  String.intercalate " "
    ["git", "--no-pager", "show", "--no-color", "--no-ext-diff",
     "--unified=3", "--diff-algorithm=patience", "-M", "-C",
     "--ignore-cr-at-eol", commit]

/-- JavaScript `out.split(' ')[0]`: the text before the first space. -/
def headWord (s : String) : String :=
  String.mk (s.data.takeWhile (fun c => c ≠ ' '))

/-- JavaScript `.trim()` on a `String`. -/
def jsTrim (s : String) : String := String.mk (trimChars s.data)

/-- `getLastCommitHash` (cli.js lines 297-306): first word of
`git log --oneline -1`, trimmed; a subprocess failure is fatal. -/
def getLastCommitHash (env : GitEnv) : Except String String :=
  (env.runCmd gitLogOnelineCmd).map (fun out => jsTrim (headWord out))

/-- `getCommitMessage` (cli.js lines 308-318): trimmed stdout of the
`--format=%B` invocation; a subprocess failure is fatal. -/
def getCommitMessage (env : GitEnv) (commit : String) : Except String String :=
  (env.runCmd (getCommitMessageCmd commit)).map jsTrim

/-- `getCommitDiff` (cli.js lines 320-343): raw stdout of the fixed
`git show` invocation; a subprocess failure is fatal. -/
def getCommitDiff (env : GitEnv) (commit : String) : Except String String :=
  env.runCmd (getCommitDiffCmd commit)

/-- `readLibRequired` (cli.js lines 359-371): read one cached asset;
failure (missing asset) is fatal. -/
def readLibRequired (env : GitEnv) (file : String) : Except String String :=
  env.readLib file

/-- `generateHtml` as executed by the run: reads the three required
assets and builds the document (cli.js lines 389-392); a missing asset
aborts. -/
def generateHtmlRun (env : GitEnv) (commit : String)
    (commitMessage diffOutput : Str) : Except String Str :=
  match readLibRequired env "highlightjs-github.min.css" with
  | Except.error e => Except.error e
  | Except.ok cssHighlight =>
    match readLibRequired env "diff2html.min.css" with
    | Except.error e => Except.error e
    | Except.ok cssDiff2Html =>
      match readLibRequired env "diff2html-ui.min.js" with
      | Except.error e => Except.error e
      | Except.ok jsDiff2Html =>
        Except.ok (generateHtml commit.data commitMessage diffOutput
          cssHighlight.data cssDiff2Html.data jsDiff2Html.data)

/-- `generateStaticHtml` (cli.js lines 458-487): compose the interactive
document, execute it in the headless DOM, strip every script element
and serialize.  A jsdom failure rejects and is fatal in `main`. -/
def generateStaticHtmlRun (env : GitEnv) (commit : String)
    (commitMessage diffOutput : Str) : Except String Str :=
  match generateHtmlRun env commit commitMessage diffOutput with
  | Except.error e => Except.error e
  | Except.ok base =>
    match env.render base with
    | Except.error e => Except.error e
    | Except.ok dom => Except.ok (serializeDom (removeScripts dom))

/-- The observable outcome of one `main` run: the process exit code,
the files written (in order, name and content), and the subprocess
command lines invoked (in order). -/
structure RunOutcome where
  exitCode : Nat
  written : List (String × Str)
  calls : List String

/-- Model of JavaScript `a.startsWith('-')` on the argument strings. -/
def startsWithDash (s : String) : Bool :=
  match s.data with
  | [] => false
  | c :: _ => c = '-'

/-- `const commit = positional[0] || getLastCommitHash()` (cli.js line
493): the first positional argument when present and non-empty
(JavaScript `||` rejects the empty string as falsy), else the hash of
the latest commit.  Also returns the subprocess calls this step makes. -/
def resolveCommit (env : GitEnv) (positional : List String) :
    Except String String × List String :=
  match positional.head? with
  | some c =>
    if c = "" then (getLastCommitHash env, [gitLogOnelineCmd])
    else (Except.ok c, [])
  | none => (getLastCommitHash env, [gitLogOnelineCmd])

/-- The `main` function of cli.js (lines 489-514) over the effect
environment: parse arguments, resolve the commit, fetch message and
diff, compose the (static or interactive) document, write the output
file.  Every fatal error (subprocess failure, missing asset, jsdom
failure) exits with code 1 before any file is written. -/
def mainRun (env : GitEnv) (argv : List String) : RunOutcome :=
  let isStatic := argv.contains "--static"
  let positional := argv.filter (fun a => ! startsWithDash a)
  match resolveCommit env positional with
  | (Except.error _, calls) => ⟨1, [], calls⟩
  | (Except.ok commit, calls0) =>
    match getCommitMessage env commit with
    | Except.error _ => ⟨1, [], calls0 ++ [getCommitMessageCmd commit]⟩
    | Except.ok commitMessage =>
      match getCommitDiff env commit with
      | Except.error _ =>
        ⟨1, [], calls0 ++ [getCommitMessageCmd commit, getCommitDiffCmd commit]⟩
      | Except.ok diffOutput =>
        match (if isStatic then
            generateStaticHtmlRun env commit commitMessage.data diffOutput.data
          else
            generateHtmlRun env commit commitMessage.data diffOutput.data) with
        | Except.error _ =>
          ⟨1, [], calls0 ++ [getCommitMessageCmd commit, getCommitDiffCmd commit]⟩
        | Except.ok html =>
          ⟨0, [("commit-" ++ commit ++ "-diff.html", html)],
            calls0 ++ [getCommitMessageCmd commit, getCommitDiffCmd commit]⟩

/-- `fs.writeFileSync` semantics over a filesystem (name to content):
each write replaces whatever was stored under that name. -/
def applyWrites (fs : String → Option Str) :
    List (String × Str) → (String → Option Str)
  | [] => fs
  | (name, content) :: rest =>
    applyWrites (fun n => if n = name then some content else fs n) rest

/-- An environment in which every subprocess fails (an unresolvable
reference). -/
def envFailW : GitEnv where
  runCmd := fun _ => Except.error "fatal: bad revision"
  readLib := fun _ => Except.ok ""
  render := fun _ => Except.ok []

/-- An environment in which every subprocess succeeds with fixed
output and all assets are present. -/
def envOkW : GitEnv where
  runCmd := fun _ => Except.ok "deadbeef subject"
  readLib := fun _ => Except.ok "x"
  render := fun _ => Except.ok []

theorem replaceChar_append (c : Char) (r : Str) (l₁ l₂ : Str) :
    replaceChar c r (l₁ ++ l₂) = replaceChar c r l₁ ++ replaceChar c r l₂ := by
  induction l₁ with
  | nil => rfl
  | cons x xs ih => simp [replaceChar, ih]

theorem escapedDiff_cons (c : Char) (s : Str) :
    escapedDiff (c :: s) = escDiffChar c ++ escapedDiff s := by
  by_cases h1 : c = '\\'
  · subst h1
    simp [escapedDiff, escDiffChar, replaceChar, replaceChar_append]
  · by_cases h2 : c = '\''
    · subst h2
      simp [escapedDiff, escDiffChar, replaceChar, replaceChar_append]
    · by_cases h3 : c = '\n'
      · subst h3
        simp [escapedDiff, escDiffChar, replaceChar, replaceChar_append]
      · by_cases h4 : c = '\r'
        · subst h4
          simp [escapedDiff, escDiffChar, replaceChar, replaceChar_append]
        · simp [escapedDiff, escDiffChar, replaceChar, replaceChar_append,
            h1, h2, h3, h4]

theorem decodeSingleQuoted_escDiffChar (c : Char) (rest : Str) :
    decodeSingleQuoted (escDiffChar c ++ rest) =
      (decodeSingleQuoted rest).map (c :: ·) := by
  by_cases h1 : c = '\\'
  · subst h1; simp [escDiffChar, decodeSingleQuoted, jsEscChar]
  · by_cases h2 : c = '\''
    · subst h2; simp [escDiffChar, decodeSingleQuoted, jsEscChar]
    · by_cases h3 : c = '\n'
      · subst h3; simp [escDiffChar, decodeSingleQuoted, jsEscChar]
      · by_cases h4 : c = '\r'
        · subst h4; simp [escDiffChar, decodeSingleQuoted, jsEscChar]
        · rw [escDiffChar]
          simp only [h1, h2, h3, h4, if_false, List.singleton_append]
          rw [decodeSingleQuoted.eq_def]
          simp [h1, h2, h3, h4]

/-- Claim C1: for every DiffText string, the escaped form produced by
`generateHtml` (the four replacements, backslash first), decoded as the
body of a single-quoted one-line string literal, reconstructs the
original DiffText exactly.  `decodeSingleQuoted` returning `some` also
certifies that the escaped form is a syntactically valid one-line body
(no raw newline or carriage return, no unescaped quote). -/
theorem escapedDiff_roundtrip (s : Str) :
    decodeSingleQuoted (escapedDiff s) = some s := by
  induction s with
  | nil => rfl
  | cons c cs ih =>
    rw [escapedDiff_cons, decodeSingleQuoted_escDiffChar, ih]
    rfl

theorem escapeHtml_cons (c : Char) (s : Str) :
    escapeHtml (c :: s) = escHtmlChar c ++ escapeHtml s := by
  by_cases h1 : c = '&'
  · subst h1
    simp [escapeHtml, escHtmlChar, replaceChar, replaceChar_append]
  · by_cases h2 : c = '<'
    · subst h2
      simp [escapeHtml, escHtmlChar, replaceChar, replaceChar_append]
    · by_cases h3 : c = '>'
      · subst h3
        simp [escapeHtml, escHtmlChar, replaceChar, replaceChar_append]
      · by_cases h4 : c = '"'
        · subst h4
          simp [escapeHtml, escHtmlChar, replaceChar, replaceChar_append]
        · by_cases h5 : c = '\''
          · subst h5
            simp [escapeHtml, escHtmlChar, replaceChar, replaceChar_append]
          · simp [escapeHtml, escHtmlChar, replaceChar, replaceChar_append,
              h1, h2, h3, h4, h5]

set_option maxHeartbeats 1000000 in
theorem decodeHtmlText_escHtmlChar (c : Char) (rest : Str) :
    decodeHtmlText (escHtmlChar c ++ rest) =
      (decodeHtmlText rest).map (c :: ·) := by
  by_cases h1 : c = '&'
  · subst h1; simp [escHtmlChar, decodeHtmlText]
  · by_cases h2 : c = '<'
    · subst h2; simp [escHtmlChar, decodeHtmlText]
    · by_cases h3 : c = '>'
      · subst h3; simp [escHtmlChar, decodeHtmlText]
      · by_cases h4 : c = '"'
        · subst h4; simp [escHtmlChar, decodeHtmlText]
        · by_cases h5 : c = '\''
          · subst h5; simp [escHtmlChar, decodeHtmlText]
          · rw [escHtmlChar]
            simp only [h1, h2, h3, h4, h5, if_false, List.singleton_append]
            rw [decodeHtmlText.eq_def]
            simp [h1, h2, h3, h4, h5]

theorem escHtmlChar_no_meta (c d : Char)
    (hd : d = '<' ∨ d = '>' ∨ d = '"' ∨ d = '\'') : d ∉ escHtmlChar c := by
  by_cases h1 : c = '&'
  · subst h1
    rcases hd with h | h | h | h <;> subst h <;> simp [escHtmlChar]
  · by_cases h2 : c = '<'
    · subst h2
      rcases hd with h | h | h | h <;> subst h <;> simp [escHtmlChar]
    · by_cases h3 : c = '>'
      · subst h3
        rcases hd with h | h | h | h <;> subst h <;> simp [escHtmlChar]
      · by_cases h4 : c = '"'
        · subst h4
          rcases hd with h | h | h | h <;> subst h <;> simp [escHtmlChar]
        · by_cases h5 : c = '\''
          · subst h5
            rcases hd with h | h | h | h <;> subst h <;> simp [escHtmlChar]
          · rcases hd with h | h | h | h
            · subst h
              simpa [escHtmlChar, h1, h2, h3, h4, h5] using fun hh => h2 hh.symm
            · subst h
              simpa [escHtmlChar, h1, h2, h3, h4, h5] using fun hh => h3 hh.symm
            · subst h
              simpa [escHtmlChar, h1, h2, h3, h4, h5] using fun hh => h4 hh.symm
            · subst h
              simpa [escHtmlChar, h1, h2, h3, h4, h5] using fun hh => h5 hh.symm

theorem escapeHtml_no_meta (s : Str) (d : Char)
    (hd : d = '<' ∨ d = '>' ∨ d = '"' ∨ d = '\'') : d ∉ escapeHtml s := by
  induction s with
  | nil => simp [escapeHtml, replaceChar]
  | cons c cs ih =>
    rw [escapeHtml_cons]
    intro hmem
    rcases List.mem_append.mp hmem with h | h
    · exact escHtmlChar_no_meta c d hd h
    · exact ih h

/-- Claim C3: for every CommitMessage string, `escapeHtml` replaces each
of the five HTML metacharacters with its entity form (ampersand first,
so no entity is double-escaped).  The output contains no raw `<`, `>`,
`"` or `'` at all, every `&` in it begins one of the five produced
entities, and strict entity decoding reconstructs the original message,
so the escaped form renders as literal text, not markup. -/
theorem escapeHtml_correct (s : Str) :
    decodeHtmlText (escapeHtml s) = some s ∧
    '<' ∉ escapeHtml s ∧ '>' ∉ escapeHtml s ∧
    '"' ∉ escapeHtml s ∧ '\'' ∉ escapeHtml s := by
  refine ⟨?_, ?_, ?_, ?_, ?_⟩
  · induction s with
    | nil => rfl
    | cons c cs ih =>
      rw [escapeHtml_cons, decodeHtmlText_escHtmlChar, ih]
      rfl
  · exact escapeHtml_no_meta s '<' (by simp)
  · exact escapeHtml_no_meta s '>' (by simp)
  · exact escapeHtml_no_meta s '"' (by simp)
  · exact escapeHtml_no_meta s '\'' (by simp)

theorem replaceAllByAux_skip (eq : Char → Char → Bool) (pat rep : Str) :
    ∀ (n : Nat) (l : Str),
      replaceAllByAux eq pat rep n l = replaceAllByAux eq pat rep 0 (l.drop n) := by
  intro n
  induction n with
  | zero => intro l; rfl
  | succ m ih =>
    intro l
    cases l with
    | nil => rfl
    | cons x xs => simpa [replaceAllByAux] using ih xs

theorem replaceAllBy_cons (eq : Char → Char → Bool) (pat rep : Str)
    (x : Char) (xs : Str) :
    replaceAllBy eq pat rep (x :: xs) =
      if startsWithBy eq pat (x :: xs) then
        rep ++ replaceAllBy eq pat rep (xs.drop (pat.length - 1))
      else x :: replaceAllBy eq pat rep xs := by
  rw [replaceAllBy, replaceAllByAux]
  rw [replaceAllByAux_skip]
  rfl

theorem startsWithBy_append_decomp (eq : Char → Char → Bool) :
    ∀ (a p b : Str),
      startsWithBy eq p (a ++ b) =
        (startsWithBy eq (p.take a.length) a &&
          startsWithBy eq (p.drop a.length) b) := by
  intro a
  induction a with
  | nil => intro p b; simp [startsWithBy]
  | cons y ys ih =>
    intro p b
    cases p with
    | nil => simp [startsWithBy]
    | cons q qs =>
      simp only [List.cons_append, startsWithBy, List.length_cons,
        List.take_succ_cons, List.drop_succ_cons, List.append_eq,
        ih qs b, Bool.and_assoc]

theorem startsWithBy_nil_right (eq : Char → Char → Bool) (p : Str)
    (hp : p ≠ []) : startsWithBy eq p [] = false := by
  cases p with
  | nil => exact absurd rfl hp
  | cons q qs => rfl

theorem containsBy_cons_false (eq : Char → Char → Bool) (pat : Str)
    (x : Char) (xs : Str) (h : containsBy eq pat (x :: xs) = false) :
    containsBy eq pat xs = false := by
  rw [containsBy] at h
  exact (Bool.or_eq_false_iff.mp h).2

theorem containsBy_drop_false (eq : Char → Char → Bool) (pat : Str) :
    ∀ (k : Nat) (l : Str), containsBy eq pat l = false →
      containsBy eq pat (l.drop k) = false := by
  intro k
  induction k with
  | zero => intro l h; simpa using h
  | succ m ih =>
    intro l h
    cases l with
    | nil => simpa using h
    | cons x xs =>
      rw [List.drop_succ_cons]
      exact ih xs (containsBy_cons_false eq pat x xs h)

theorem startsWithBy_drop_back (eq₁ eq₂ : Char → Char → Bool)
    (q pat rep : Str)
    (cond : ∀ k, k < q.length → 0 < k →
      startsWithBy eq₁ (List.take rep.length (q.drop k)) rep = false) :
    ∀ (n : Nat) (l : Str) (k : Nat), l.length ≤ n → 0 < k → k ≤ q.length →
      startsWithBy eq₁ (q.drop k) (replaceAllBy eq₂ pat rep l) = true →
      startsWithBy eq₁ (q.drop k) l = true := by
  intro n
  induction n with
  | zero =>
    intro l k hl _ _ hsw
    have hl0 : l = [] := List.length_eq_zero.mp (Nat.le_zero.mp hl)
    subst hl0
    simpa [replaceAllBy, replaceAllByAux] using hsw
  | succ m ih =>
    intro l k hl hk hkq hsw
    cases l with
    | nil => simpa [replaceAllBy, replaceAllByAux] using hsw
    | cons x xs =>
      rcases Nat.lt_or_eq_of_le hkq with hklt | hkeq
      · rw [replaceAllBy_cons] at hsw
        cases hm : startsWithBy eq₂ pat (x :: xs) with
        | true =>
          rw [hm] at hsw
          simp only [if_true] at hsw
          rw [startsWithBy_append_decomp] at hsw
          rw [cond k hklt hk] at hsw
          simp at hsw
        | false =>
          rw [hm] at hsw
          simp only [Bool.false_eq_true, if_false] at hsw
          rw [List.drop_eq_getElem_cons hklt] at hsw ⊢
          rw [startsWithBy] at hsw ⊢
          obtain ⟨hx, hps⟩ := Bool.and_eq_true_iff.mp hsw
          have hxs : xs.length ≤ m := by simpa using hl
          have := ih xs (k + 1) hxs (Nat.succ_pos k) hklt hps
          exact Bool.and_eq_true_iff.mpr ⟨hx, this⟩
      · subst hkeq
        rw [List.drop_length]
        rfl

theorem containsBy_rep_append (eq : Char → Char → Bool) (pat rep : Str)
    (hrep : ∀ i, i < rep.length →
      startsWithBy eq (pat.take (rep.length - i)) (rep.drop i) = false)
    (m : Str) (hm : containsBy eq pat m = false) :
    containsBy eq pat (rep ++ m) = false := by
  suffices h : ∀ (j i : Nat), i + j = rep.length →
      containsBy eq pat (rep.drop i ++ m) = false by
    simpa using h rep.length 0 (by simp)
  intro j
  induction j with
  | zero =>
    intro i hij
    have hle : rep.length ≤ i := by omega
    rw [List.drop_eq_nil_of_le hle]
    simpa using hm
  | succ jj ih =>
    intro i hij
    have hilt : i < rep.length := by omega
    rw [List.drop_eq_getElem_cons hilt, List.cons_append, containsBy]
    apply Bool.or_eq_false_iff.mpr
    refine ⟨?_, ?_⟩
    · rw [← List.cons_append, ← List.drop_eq_getElem_cons hilt,
        startsWithBy_append_decomp]
      have hld : (rep.drop i).length = rep.length - i := by simp
      rw [hld, hrep i hilt]
      simp
    · exact ih (i + 1) (by omega)

theorem replaceAllBy_no_occurrence (eq : Char → Char → Bool) (pat rep : Str)
    (hp : pat ≠ [])
    (condpat : ∀ k, k < pat.length → 0 < k →
      startsWithBy eq (List.take rep.length (pat.drop k)) rep = false)
    (hrep : ∀ i, i < rep.length →
      startsWithBy eq (pat.take (rep.length - i)) (rep.drop i) = false) :
    ∀ (n : Nat) (l : Str), l.length ≤ n →
      containsBy eq pat (replaceAllBy eq pat rep l) = false := by
  intro n
  induction n with
  | zero =>
    intro l hl
    have hl0 : l = [] := List.length_eq_zero.mp (Nat.le_zero.mp hl)
    subst hl0
    simpa [replaceAllBy, replaceAllByAux, containsBy] using
      startsWithBy_nil_right eq pat hp
  | succ m ih =>
    intro l hl
    cases l with
    | nil =>
      simpa [replaceAllBy, replaceAllByAux, containsBy] using
        startsWithBy_nil_right eq pat hp
    | cons x xs =>
      have hxs : xs.length ≤ m := by simpa using hl
      rw [replaceAllBy_cons]
      cases hsw : startsWithBy eq pat (x :: xs) with
      | true =>
        simp only [if_true]
        apply containsBy_rep_append eq pat rep hrep
        apply ih
        have := List.length_drop (pat.length - 1) xs
        omega
      | false =>
        simp only [Bool.false_eq_true, if_false]
        rw [containsBy]
        apply Bool.or_eq_false_iff.mpr
        refine ⟨?_, ih xs hxs⟩
        cases hq : startsWithBy eq pat (x :: replaceAllBy eq pat rep xs) with
        | false => rfl
        | true =>
          exfalso
          cases pat with
          | nil => exact hp rfl
          | cons p₀ ps =>
            rw [startsWithBy] at hq
            obtain ⟨hpx, hps⟩ := Bool.and_eq_true_iff.mp hq
            have hps' : startsWithBy eq ((p₀ :: ps).drop 1)
                (replaceAllBy eq (p₀ :: ps) rep xs) = true := by
              simpa using hps
            have hback := startsWithBy_drop_back eq eq (p₀ :: ps) (p₀ :: ps)
              rep condpat m xs 1 hxs Nat.one_pos (by simp) hps'
            have hcon : startsWithBy eq (p₀ :: ps) (x :: xs) = true := by
              rw [startsWithBy]
              exact Bool.and_eq_true_iff.mpr ⟨hpx, by simpa using hback⟩
            rw [hcon] at hsw
            exact Bool.noConfusion hsw

theorem startsWithBy_self_append (eq : Char → Char → Bool)
    (hrefl : ∀ c, eq c c = true) :
    ∀ (p m : Str), startsWithBy eq p (p ++ m) = true := by
  intro p
  induction p with
  | nil => intro m; rfl
  | cons c cs ih =>
    intro m
    rw [List.cons_append, startsWithBy]
    exact Bool.and_eq_true_iff.mpr ⟨hrefl c, ih m⟩

theorem replaceAllBy_rep_append (eq : Char → Char → Bool) (pat : Str)
    (hrefl : ∀ c, eq c c = true) (r₀ : Char) (rs : Str) (m : Str) :
    replaceAllBy eq (r₀ :: rs) pat ((r₀ :: rs) ++ m) =
      pat ++ replaceAllBy eq (r₀ :: rs) pat m := by
  rw [List.cons_append, replaceAllBy_cons]
  have hc : startsWithBy eq (r₀ :: rs) (r₀ :: (rs ++ m)) = true := by
    rw [← List.cons_append]
    exact startsWithBy_self_append eq hrefl _ _
  rw [hc]
  simp only [if_true]
  congr 1
  have hlen : (r₀ :: rs).length - 1 = rs.length := by simp
  rw [hlen, List.drop_left]

theorem charEqEx_refl (c : Char) : charEqEx c c = true := by
  simp [charEqEx]

theorem replaceAllBy_unescape (eq : Char → Char → Bool) (pat : Str)
    (r₀ : Char) (rs : Str)
    (condrep : ∀ k, k < (r₀ :: rs).length → 0 < k →
      startsWithBy charEqEx (List.take (r₀ :: rs).length ((r₀ :: rs).drop k))
        (r₀ :: rs) = false) :
    ∀ (n : Nat) (l : Str), l.length ≤ n →
      containsBy charEqEx (r₀ :: rs) l = false →
      replaceAllBy charEqEx (r₀ :: rs) pat (replaceAllBy eq pat (r₀ :: rs) l) =
        replaceAllBy eq pat pat l := by
  intro n
  induction n with
  | zero =>
    intro l hl _
    have hl0 : l = [] := List.length_eq_zero.mp (Nat.le_zero.mp hl)
    subst hl0
    rfl
  | succ m ih =>
    intro l hl hcon
    cases l with
    | nil => rfl
    | cons x xs =>
      have hxs : xs.length ≤ m := by simpa using hl
      have hconxs : containsBy charEqEx (r₀ :: rs) xs = false :=
        containsBy_cons_false _ _ _ _ hcon
      rw [replaceAllBy_cons eq pat (r₀ :: rs) x xs]
      cases hsw : startsWithBy eq pat (x :: xs) with
      | true =>
        simp only [if_true]
        rw [replaceAllBy_rep_append charEqEx pat charEqEx_refl r₀ rs]
        rw [replaceAllBy_cons eq pat pat x xs, hsw]
        simp only [if_true]
        congr 1
        apply ih
        · have := List.length_drop (pat.length - 1) xs
          omega
        · exact containsBy_drop_false charEqEx (r₀ :: rs) (pat.length - 1)
            xs hconxs
      | false =>
        simp only [Bool.false_eq_true, if_false]
        have hns : startsWithBy charEqEx (r₀ :: rs)
            (x :: replaceAllBy eq pat (r₀ :: rs) xs) = false := by
          cases hq : startsWithBy charEqEx (r₀ :: rs)
              (x :: replaceAllBy eq pat (r₀ :: rs) xs) with
          | false => rfl
          | true =>
            exfalso
            rw [startsWithBy] at hq
            obtain ⟨hx0, hsfx⟩ := Bool.and_eq_true_iff.mp hq
            have hsfx' : startsWithBy charEqEx ((r₀ :: rs).drop 1)
                (replaceAllBy eq pat (r₀ :: rs) xs) = true := by
              simpa using hsfx
            have hback := startsWithBy_drop_back charEqEx eq (r₀ :: rs) pat
              (r₀ :: rs) condrep m xs 1 hxs Nat.one_pos (by simp) hsfx'
            have hcx : startsWithBy charEqEx (r₀ :: rs) (x :: xs) = true := by
              rw [startsWithBy]
              exact Bool.and_eq_true_iff.mpr ⟨hx0, by simpa using hback⟩
            rw [containsBy, hcx] at hcon
            simp at hcon
        rw [replaceAllBy_cons charEqEx (r₀ :: rs) pat x
          (replaceAllBy eq pat (r₀ :: rs) xs), hns]
        simp only [Bool.false_eq_true, if_false]
        rw [replaceAllBy_cons eq pat pat x xs, hsw]
        simp only [Bool.false_eq_true, if_false]
        congr 1
        exact ih xs hxs hconxs

theorem script_condpat : ∀ k, k < ("</script>".data : Str).length → 0 < k →
    startsWithBy charEqCI
      (List.take ("<\\/script>".data : Str).length
        (("</script>".data : Str).drop k)) ("<\\/script>".data) = false := by
  decide

theorem script_condrep : ∀ i, i < ("<\\/script>".data : Str).length →
    startsWithBy charEqCI
      (("</script>".data : Str).take (("<\\/script>".data : Str).length - i))
      (("<\\/script>".data : Str).drop i) = false := by
  decide

theorem script_condunesc : ∀ k, k < ('<' :: ("\\/script>".data : Str)).length →
    0 < k →
    startsWithBy charEqEx
      (List.take ('<' :: ("\\/script>".data : Str)).length
        (('<' :: ("\\/script>".data : Str)).drop k))
      ('<' :: "\\/script>".data) = false := by
  decide

theorem style_condpat : ∀ k, k < ("</style>".data : Str).length → 0 < k →
    startsWithBy charEqCI
      (List.take ("<\\/style>".data : Str).length
        (("</style>".data : Str).drop k)) ("<\\/style>".data) = false := by
  decide

theorem style_condrep : ∀ i, i < ("<\\/style>".data : Str).length →
    startsWithBy charEqCI
      (("</style>".data : Str).take (("<\\/style>".data : Str).length - i))
      (("<\\/style>".data : Str).drop i) = false := by
  decide

theorem style_condunesc : ∀ k, k < ('<' :: ("\\/style>".data : Str)).length →
    0 < k →
    startsWithBy charEqEx
      (List.take ('<' :: ("\\/style>".data : Str)).length
        (('<' :: ("\\/style>".data : Str)).drop k))
      ('<' :: "\\/style>".data) = false := by
  decide

/-- Claim C2 (counterexample to the claim as stated): `safeInline` does
remove every casing of the closing tag, but an upper-case occurrence is
rewritten to the fixed lower-case escaped form, so the original asset
content `</ScRiPt>` is no longer present even after removing the
inserted escape backslash: the escaping is not content-preserving on
mixed-case closing tags. -/
theorem safeInline_case_counterexample :
    safeInline ("</ScRiPt>".data) "script" = "<\\/script>".data ∧
    (safeInline ("</ScRiPt>".data) "script").filter (fun c => c ≠ '\\') ≠
      ("</ScRiPt>".data : Str) ∧
    containsBy charEqEx ("</ScRiPt>".data)
      (safeInline ("</ScRiPt>".data) "script") = false := by
  decide

/-- Claim C2 (amended): for every asset text, the output of `safeInline`
with the matching kind contains no occurrence of its closing-tag
sequence in any letter casing, so the enclosing style/script container
is not prematurely terminated; and the full asset content is preserved
up to rewriting each case-insensitive occurrence of the closing tag into
the fixed lower-case escaped form: provided the content does not already
contain the escaped form, undoing the escaping (replacing `<\/script>`
by `</script>`, resp. for style) recovers the content exactly, up to
lower-casing of the matched closing tags; in particular content whose
closing-tag occurrences are all lower-case is fully present in escaped
form. -/
theorem safeInline_escapes (content : Str) :
    containsBy charEqCI ("</script>".data)
      (safeInline content "script") = false ∧
    containsBy charEqCI ("</style>".data)
      (safeInline content "style") = false ∧
    (containsBy charEqEx ("<\\/script>".data) content = false →
      replaceAllBy charEqEx ("<\\/script>".data) ("</script>".data)
          (safeInline content "script") =
        replaceAllBy charEqCI ("</script>".data) ("</script>".data) content) ∧
    (containsBy charEqEx ("<\\/style>".data) content = false →
      replaceAllBy charEqEx ("<\\/style>".data) ("</style>".data)
          (safeInline content "style") =
        replaceAllBy charEqCI ("</style>".data) ("</style>".data) content) := by
  refine ⟨?_, ?_, ?_, ?_⟩
  · by_cases hc : content = []
    · subst hc; decide
    · rw [safeInline, if_neg hc, if_pos rfl]
      exact replaceAllBy_no_occurrence charEqCI _ _ (by decide) script_condpat
        script_condrep content.length content le_rfl
  · by_cases hc : content = []
    · subst hc; decide
    · rw [safeInline, if_neg hc, if_neg (by decide), if_pos rfl]
      exact replaceAllBy_no_occurrence charEqCI _ _ (by decide) style_condpat
        style_condrep content.length content le_rfl
  · intro hcon
    by_cases hc : content = []
    · subst hc; rfl
    · rw [safeInline, if_neg hc, if_pos rfl]
      have hrepeq : ("<\\/script>".data : Str) = '<' :: "\\/script>".data := rfl
      rw [hrepeq] at hcon ⊢
      exact replaceAllBy_unescape charEqCI ("</script>".data) '<'
        ("\\/script>".data) script_condunesc content.length content le_rfl hcon
  · intro hcon
    by_cases hc : content = []
    · subst hc; rfl
    · rw [safeInline, if_neg hc, if_neg (by decide), if_pos rfl]
      have hrepeq : ("<\\/style>".data : Str) = '<' :: "\\/style>".data := rfl
      rw [hrepeq] at hcon ⊢
      exact replaceAllBy_unescape charEqCI ("</style>".data) '<'
        ("\\/style>".data) style_condunesc content.length content le_rfl hcon

/-- Witness for `safeInline_escapes`: the conditional conjuncts applied
at a concrete asset text containing a lower-case closing tag. -/
theorem safeInline_escapes_witness :
    containsBy charEqCI ("</script>".data)
      (safeInline ("a</script>b".data) "script") = false ∧
    replaceAllBy charEqEx ("<\\/script>".data) ("</script>".data)
        (safeInline ("a</script>b".data) "script") =
      replaceAllBy charEqCI ("</script>".data) ("</script>".data)
        ("a</script>b".data) :=
  ⟨(safeInline_escapes _).1, (safeInline_escapes _).2.2.1 (by decide)⟩

theorem removeScripts_zero : ∀ l, countScripts (removeScripts l) = 0 := by
  intro l
  induction l using removeScripts.induct <;>
    simp_all [removeScripts, countScripts]

theorem removeScripts_noop : ∀ l, countScripts l = 0 → removeScripts l = l := by
  intro l
  induction l using removeScripts.induct <;>
    simp_all [removeScripts, countScripts]

/-- Claim C4: in Static mode the finalization step removes every script
element from the rendered DOM before serializing — the cleaned document
contains zero script elements — and it is idempotent: on a DOM that
contains no script element it is a no-op. -/
theorem removeScripts_correct (dom : List DomNode) :
    countScripts (removeScripts dom) = 0 ∧
    (countScripts dom = 0 → removeScripts dom = dom) :=
  ⟨removeScripts_zero dom, removeScripts_noop dom⟩

/-- Witness for `removeScripts_correct` at concrete documents: a
document holding one script element, and a script-free document on
which the cleanup is a no-op. -/
theorem removeScripts_correct_witness :
    countScripts (removeScripts
      [DomNode.element "html" [DomNode.element "script" [DomNode.text "x"]]]) = 0 ∧
    removeScripts [DomNode.element "div" [DomNode.text "hi"]] =
      [DomNode.element "div" [DomNode.text "hi"]] :=
  ⟨(removeScripts_correct _).1,
    (removeScripts_correct _).2 (by simp [countScripts])⟩

theorem pollTime_never (start : Nat) : ∀ (n t : Nat), start + 5001 - t ≤ n →
    start ≤ t → t ≤ start + 5000 → (t - start) % 25 = 0 →
    pollTime (fun _ => false) start t = start + 5025 := by
  intro n
  induction n with
  | zero => intro t h1 h2 h3 _; omega
  | succ m ih =>
    intro t h1 h2 h3 hmod
    rw [pollTime]
    simp only [Bool.false_eq_true, if_false]
    have hng : ¬ (t - start > 5000) := by omega
    rw [if_neg hng]
    by_cases hc : t + 25 ≤ start + 5000
    · exact ih (t + 25) (by omega) (by omega) hc (by omega)
    · have ht : t = start + 5000 := by omega
      subst ht
      rw [pollTime]
      simp only [Bool.false_eq_true, if_false]
      have hgt : start + 5000 + 25 - start > 5000 := by omega
      rw [if_pos hgt]

theorem pollTime_le_and_resolved (rendered : Nat → Bool) (start : Nat) :
    ∀ (n t : Nat), start + 5001 - t ≤ n → t ≤ start + 5025 →
      pollTime rendered start t ≤ start + 5025 ∧
      (rendered (pollTime rendered start t) = true ∨
        pollTime rendered start t - start > 5000) := by
  intro n
  induction n with
  | zero =>
    intro t h1 h2
    rw [pollTime]
    cases hr : rendered t with
    | true =>
      rw [if_pos rfl]
      exact ⟨h2, Or.inl hr⟩
    | false =>
      simp only [Bool.false_eq_true, if_false]
      have hto : t - start > 5000 := by omega
      rw [if_pos hto]
      exact ⟨h2, Or.inr hto⟩
  | succ m ih =>
    intro t h1 h2
    rw [pollTime]
    cases hr : rendered t with
    | true =>
      rw [if_pos rfl]
      exact ⟨h2, Or.inl hr⟩
    | false =>
      simp only [Bool.false_eq_true, if_false]
      by_cases hto : t - start > 5000
      · rw [if_pos hto]
        exact ⟨h2, Or.inr hto⟩
      · rw [if_neg hto]
        exact ih (t + 25) (by omega) (by omega)

/-- Claim C7 (counterexample to the claim as stated): when rendered
content never appears, the wait started at clock 0 resolves at 5025 ms,
the first poll tick strictly after the 5000 ms deadline — later than
the fixed 5-second timeout itself, because the code gives up only when
the elapsed time strictly exceeds 5000 ms and polls every 25 ms. -/
theorem pollTime_timeout_counterexample :
    pollTime (fun _ => false) 0 0 = 5025 ∧
    ¬ pollTime (fun _ => false) 0 0 ≤ 0 + 5000 := by
  have h := pollTime_never 0 5001 0 (by omega) (by omega) (by omega) (by omega)
  refine ⟨by simpa using h, ?_⟩
  rw [h]
  omega

/-- Claim C7 (amended): the Static Renderer's polling wait always
terminates (`pollTime` is total); it resolves at once at a poll tick
where the diff container has rendered content, and otherwise by the
timeout check, in every case no later than the fixed 5-second timeout
plus one 25 ms polling interval after polling starts, proceeding
without error rather than hanging indefinitely when rendered content
never appears. -/
theorem pollTime_bounded (rendered : Nat → Bool) (start t : Nat)
    (h : t ≤ start + 5025) :
    pollTime rendered start t ≤ start + 5025 ∧
    (rendered (pollTime rendered start t) = true ∨
      pollTime rendered start t - start > 5000) ∧
    (rendered t = true → pollTime rendered start t = t) := by
  obtain ⟨hle, hres⟩ := pollTime_le_and_resolved rendered start
    (start + 5001) t (by omega) h
  refine ⟨hle, hres, ?_⟩
  intro hr
  rw [pollTime, if_pos hr]

/-- Witness for `pollTime_bounded`: a run whose content is rendered at
the very first check resolves immediately at clock 0. -/
theorem pollTime_bounded_witness :
    pollTime (fun _ => true) 0 0 ≤ 0 + 5025 ∧
    ((fun _ : Nat => true) (pollTime (fun _ => true) 0 0) = true ∨
      pollTime (fun _ => true) 0 0 - 0 > 5000) ∧
    ((fun _ : Nat => true) 0 = true → pollTime (fun _ => true) 0 0 = 0) :=
  pollTime_bounded (fun _ => true) 0 0 (by omega)

theorem dropWhile_ws_cons_nl (x : Str) :
    List.dropWhile Char.isWhitespace ('\n' :: x) =
      List.dropWhile Char.isWhitespace x := by
  rw [List.dropWhile_cons, if_pos (by decide)]

theorem dropWhile_ws_cons_lt (x : Str) :
    List.dropWhile Char.isWhitespace ('<' :: x) = '<' :: x := by
  rw [List.dropWhile_cons, if_neg (by decide)]

theorem dropWhile_ws_cons_gt (x : Str) :
    List.dropWhile Char.isWhitespace ('>' :: x) = '>' :: x := by
  rw [List.dropWhile_cons, if_neg (by decide)]

theorem dropWhile_ws_append (w z : Str)
    (h : ∀ c ∈ w, Char.isWhitespace c = true) :
    List.dropWhile Char.isWhitespace (w ++ z) =
      List.dropWhile Char.isWhitespace z := by
  induction w with
  | nil => rfl
  | cons c cs ih =>
    rw [List.cons_append, List.dropWhile_cons, if_pos (h c (List.mem_cons_self c cs))]
    exact ih fun d hd => h d (List.mem_cons_of_mem c hd)

theorem trimChars_doc (y : Str) :
    trimChars ('\n' :: '<' :: (y ++ ['>', '\n', ' ', ' '])) =
      '<' :: (y ++ ['>']) := by
  unfold trimChars
  rw [dropWhile_ws_cons_nl, dropWhile_ws_cons_lt]
  have e : '<' :: (y ++ ['>', '\n', ' ', ' ']) =
      ('<' :: (y ++ ['>'])) ++ ['\n', ' ', ' '] := by simp
  rw [e, List.reverse_append]
  have e2 : (['\n', ' ', ' '] : Str).reverse = [' ', ' ', '\n'] := rfl
  rw [e2, dropWhile_ws_append [' ', ' ', '\n'] _ (by decide)]
  have e3 : ('<' :: (y ++ ['>'])).reverse = '>' :: (y.reverse ++ ['<']) := by
    simp
  rw [e3, dropWhile_ws_cons_gt]
  simp

set_option maxRecDepth 100000 in
theorem generateHtml_eq (commit commitMessage diffOutput a b j : Str) :
    generateHtml commit commitMessage diffOutput a b j =
      '<' :: ((tpl0core.data ++ commit ++ tpl1.data ++ safeInline a "style"
        ++ tpl2.data ++ safeInline b "style" ++ tpl3.data ++ commit
        ++ tpl4.data ++ messageRegion commitMessage ++ tpl5.data
        ++ safeInline j "script" ++ tpl6.data ++ escapedDiff diffOutput
        ++ tpl7core.data) ++ ['>']) := by
  unfold generateHtml
  have h0 : tpl0.data = '\n' :: '<' :: tpl0core.data := rfl
  have h7 : tpl7.data = tpl7core.data ++ ['>', '\n', ' ', ' '] := rfl
  rw [h0, h7]
  have harg : (('\n' :: '<' :: tpl0core.data) ++ commit ++ tpl1.data
      ++ safeInline a "style" ++ tpl2.data ++ safeInline b "style"
      ++ tpl3.data ++ commit ++ tpl4.data ++ messageRegion commitMessage
      ++ tpl5.data ++ safeInline j "script" ++ tpl6.data
      ++ escapedDiff diffOutput ++ (tpl7core.data ++ ['>', '\n', ' ', ' ']))
      = '\n' :: '<' :: ((tpl0core.data ++ commit ++ tpl1.data
      ++ safeInline a "style" ++ tpl2.data ++ safeInline b "style"
      ++ tpl3.data ++ commit ++ tpl4.data ++ messageRegion commitMessage
      ++ tpl5.data ++ safeInline j "script" ++ tpl6.data
      ++ escapedDiff diffOutput ++ tpl7core.data) ++ ['>', '\n', ' ', ' ']) := by
    simp [List.append_assoc]
  rw [harg, trimChars_doc]

set_option maxRecDepth 100000 in
/-- Claim C9: for an empty commit message, the composed document shows
the fixed placeholder text `No commit message` in the commit-message
region (the `commit-meta` div) instead of an empty region. -/
theorem generateHtml_empty_message_placeholder
    (commit diffOutput a b j : Str) :
    occursIn
      ("<div class=\"commit-meta\" id=\"commit-message\">No commit message</div>".data)
      (generateHtml commit [] diffOutput a b j) := by
  rw [generateHtml_eq]
  refine ⟨'<' :: (tpl0core.data ++ commit ++ tpl1.data ++ safeInline a "style"
    ++ tpl2.data ++ safeInline b "style" ++ tpl3.data ++ commit
    ++ "</h1>\n  ".data),
    "\n  <div id=\"diff-container\"></div>\n  <script>".data
    ++ safeInline j "script" ++ tpl6.data ++ escapedDiff diffOutput
    ++ tpl7core.data ++ ['>'], ?_⟩
  have e4 : tpl4.data = "</h1>\n  ".data
      ++ "<div class=\"commit-meta\" id=\"commit-message\">".data := rfl
  have e5 : tpl5.data = "</div>".data
      ++ "\n  <div id=\"diff-container\"></div>\n  <script>".data := rfl
  have emsg : messageRegion [] = "No commit message".data := rfl
  have ep : ("<div class=\"commit-meta\" id=\"commit-message\">No commit message</div>".data : Str)
      = "<div class=\"commit-meta\" id=\"commit-message\">".data
        ++ ("No commit message".data ++ "</div>".data) := rfl
  rw [e4, e5, emsg, ep]
  simp [List.append_assoc]

set_option maxRecDepth 100000 in
/-- Claim C10: for every commit reference string, `generateHtml` embeds
the reference verbatim — without any escaping — into the document title
and the top-level heading (unlike the commit message, which passes
through `escapeHtml`), so a reference containing HTML metacharacters
appears as markup in the generated document. -/
theorem generateHtml_commit_verbatim
    (commit commitMessage diffOutput a b j : Str) :
    occursIn ("<title>Commit ".data ++ commit ++ " Diff</title>".data)
      (generateHtml commit commitMessage diffOutput a b j) ∧
    occursIn ("<h1>Changes in Commit ".data ++ commit ++ "</h1>".data)
      (generateHtml commit commitMessage diffOutput a b j) := by
  constructor
  · rw [generateHtml_eq]
    refine ⟨'<' :: "!DOCTYPE html>\n<html lang=\"en\">\n<head>\n  <meta charset=\"UTF-8\">\n  <meta name=\"viewport\" content=\"width=device-width, initial-scale=1.0\">\n  ".data,
      "\n  <style>".data ++ safeInline a "style" ++ tpl2.data
      ++ safeInline b "style" ++ tpl3.data ++ commit ++ tpl4.data
      ++ messageRegion commitMessage ++ tpl5.data ++ safeInline j "script"
      ++ tpl6.data ++ escapedDiff diffOutput ++ tpl7core.data ++ ['>'], ?_⟩
    have e0 : tpl0core.data = "!DOCTYPE html>\n<html lang=\"en\">\n<head>\n  <meta charset=\"UTF-8\">\n  <meta name=\"viewport\" content=\"width=device-width, initial-scale=1.0\">\n  ".data
        ++ "<title>Commit ".data := rfl
    have e1 : tpl1.data = " Diff</title>".data ++ "\n  <style>".data := rfl
    rw [e0, e1]
    simp [List.append_assoc]
  · rw [generateHtml_eq]
    refine ⟨'<' :: (tpl0core.data ++ commit ++ tpl1.data
      ++ safeInline a "style" ++ tpl2.data ++ safeInline b "style"
      ++ "</style>\n  <style>\n    body \x7b\n      font-family: Arial, sans-serif;\n      margin: 20px;\n    \x7d\n    h1 \x7b\n      color: #333;\n    \x7d\n    .commit-meta \x7b\n      background: #f6f8fa;\n      border: 1px solid #d0d7de;\n      border-radius: 6px;\n      padding: 12px 16px;\n      margin-top: 8px;\n      white-space: pre-wrap; /* preserve newlines in message */\n    \x7d\n    #diff-container \x7b\n      margin-top: 20px;\n    \x7d\n  </style>\n</head>\n<body>\n  ".data),
      "\n  <div class=\"commit-meta\" id=\"commit-message\">".data
      ++ messageRegion commitMessage ++ tpl5.data ++ safeInline j "script"
      ++ tpl6.data ++ escapedDiff diffOutput ++ tpl7core.data ++ ['>'], ?_⟩
    have e3 : tpl3.data = "</style>\n  <style>\n    body \x7b\n      font-family: Arial, sans-serif;\n      margin: 20px;\n    \x7d\n    h1 \x7b\n      color: #333;\n    \x7d\n    .commit-meta \x7b\n      background: #f6f8fa;\n      border: 1px solid #d0d7de;\n      border-radius: 6px;\n      padding: 12px 16px;\n      margin-top: 8px;\n      white-space: pre-wrap; /* preserve newlines in message */\n    \x7d\n    #diff-container \x7b\n      margin-top: 20px;\n    \x7d\n  </style>\n</head>\n<body>\n  ".data
        ++ "<h1>Changes in Commit ".data := rfl
    have e4 : tpl4.data = "</h1>".data
        ++ "\n  <div class=\"commit-meta\" id=\"commit-message\">".data := rfl
    rw [e3, e4]
    simp [List.append_assoc]

/-- Claim C5: for every commit reference that does not resolve to a
commit — the message subprocess or the diff subprocess fails — the run
terminates with a non-zero exit status before any output file is
written: no file (and no partial file) is produced, and the filesystem
is left unchanged. -/
theorem mainRun_failfast (env : GitEnv) (ref : String)
    (h1 : ref ≠ "") (h2 : startsWithDash ref = false)
    (hfail : (∃ e, env.runCmd (getCommitMessageCmd ref) = Except.error e) ∨
             (∃ e, env.runCmd (getCommitDiffCmd ref) = Except.error e)) :
    (mainRun env [ref]).exitCode ≠ 0 ∧ (mainRun env [ref]).written = [] ∧
    ∀ fs : String → Option Str, applyWrites fs (mainRun env [ref]).written = fs := by
  have hpos : ([ref].filter (fun a => ! startsWithDash a)) = [ref] := by
    simp [List.filter, h2]
  have hres : resolveCommit env [ref] = (Except.ok ref, []) := by
    simp [resolveCommit, h1]
  rcases hfail with ⟨e, he⟩ | ⟨e, he⟩
  · have hmsg : getCommitMessage env ref = Except.error e := by
      simp [getCommitMessage, he, Except.map]
    have hmain : mainRun env [ref] = ⟨1, [], [getCommitMessageCmd ref]⟩ := by
      simp only [mainRun, hpos, hres, hmsg, List.nil_append]
    rw [hmain]
    exact ⟨Nat.one_ne_zero, rfl, fun fs => rfl⟩
  · have hdiff : getCommitDiff env ref = Except.error e := by
      simp [getCommitDiff, he]
    cases hm : getCommitMessage env ref with
    | error e2 =>
      have hmain : mainRun env [ref] = ⟨1, [], [getCommitMessageCmd ref]⟩ := by
        simp only [mainRun, hpos, hres, hm, List.nil_append]
      rw [hmain]
      exact ⟨Nat.one_ne_zero, rfl, fun fs => rfl⟩
    | ok m =>
      have hmain : mainRun env [ref] =
          ⟨1, [], [getCommitMessageCmd ref, getCommitDiffCmd ref]⟩ := by
        simp only [mainRun, hpos, hres, hm, hdiff, List.nil_append]
      rw [hmain]
      exact ⟨Nat.one_ne_zero, rfl, fun fs => rfl⟩

/-- Witness for `mainRun_failfast` at a concrete failing environment. -/
theorem mainRun_failfast_witness :
    (mainRun envFailW ["deadbeef"]).exitCode ≠ 0 ∧
    (mainRun envFailW ["deadbeef"]).written = [] :=
  ⟨(mainRun_failfast envFailW "deadbeef" (by decide) (by decide)
      (Or.inl ⟨"fatal: bad revision", rfl⟩)).1,
    (mainRun_failfast envFailW "deadbeef" (by decide) (by decide)
      (Or.inl ⟨"fatal: bad revision", rfl⟩)).2.1⟩

/-- Claim C6: for every commit reference, the run invokes the
version-control tool exactly once for the diff, with the fixed flag set
— no pager, `show` with no color codes, no external diff helpers,
context width 3, the deterministic patience algorithm, rename (`-M`)
and copy (`-C`) detection, CR-only end-of-line differences ignored —
returning the diff as the raw stdout of that invocation; and exactly
one further invocation, `git log -1 --format=%B`, returns the
CommitMessage as the `%B` raw body (trimmed of surrounding
whitespace). -/
theorem mainRun_git_invocations (env : GitEnv) (ref msgOut diffOut : String)
    (h1 : ref ≠ "") (h2 : startsWithDash ref = false)
    (hm : env.runCmd (getCommitMessageCmd ref) = Except.ok msgOut)
    (hd : env.runCmd (getCommitDiffCmd ref) = Except.ok diffOut) :
    (mainRun env [ref]).calls =
      [getCommitMessageCmd ref, getCommitDiffCmd ref] ∧
    getCommitDiffCmd ref =
      "git --no-pager show --no-color --no-ext-diff --unified=3 --diff-algorithm=patience -M -C --ignore-cr-at-eol "
        ++ ref ∧
    getCommitMessageCmd ref = "git log -1 --format=%B " ++ ref ∧
    getCommitDiff env ref = Except.ok diffOut ∧
    getCommitMessage env ref = Except.ok (jsTrim msgOut) := by
  have hpos : ([ref].filter (fun a => ! startsWithDash a)) = [ref] := by
    simp [List.filter, h2]
  have hres : resolveCommit env [ref] = (Except.ok ref, []) := by
    simp [resolveCommit, h1]
  have hmsg : getCommitMessage env ref = Except.ok (jsTrim msgOut) := by
    simp [getCommitMessage, hm, Except.map]
  have hdiff : getCommitDiff env ref = Except.ok diffOut := by
    simp [getCommitDiff, hd]
  have hne : ref ≠ "--static" := by
    intro h
    rw [h] at h2
    exact absurd h2 (by decide)
  have hstat : ([ref].contains "--static") = false := by
    simp [List.contains]
    exact fun h => hne h.symm
  refine ⟨?_, ?_, rfl, hdiff, hmsg⟩
  · simp only [mainRun, hpos, hres, hmsg, hdiff, hstat, List.nil_append,
      Bool.false_eq_true, if_false]
    cases hgen : generateHtmlRun env ref (jsTrim msgOut).data diffOut.data with
    | error e => simp [hgen]
    | ok h => simp [hgen]
  · simp [getCommitDiffCmd, String.intercalate, String.intercalate.go]

/-- Witness for `mainRun_git_invocations` at a concrete succeeding
environment. -/
theorem mainRun_git_invocations_witness :
    (mainRun envOkW ["abc"]).calls =
      [getCommitMessageCmd "abc", getCommitDiffCmd "abc"] ∧
    getCommitDiffCmd "abc" =
      "git --no-pager show --no-color --no-ext-diff --unified=3 --diff-algorithm=patience -M -C --ignore-cr-at-eol abc" :=
  ⟨(mainRun_git_invocations envOkW "abc" "deadbeef subject" "deadbeef subject"
      (by decide) (by decide) rfl rfl).1,
    by
      rw [(mainRun_git_invocations envOkW "abc" "deadbeef subject"
        "deadbeef subject" (by decide) (by decide) rfl rfl).2.1]
      rfl⟩

/-- Claim C8: on every successful run (exit code 0), exactly one output
file is written, named `commit-<resolved-ref>-diff.html`, where the
resolved ref is the commit identifier the run operated on; the write
stores the document under that name whatever the filesystem previously
held (overwriting any existing file of that name) and touches no other
file. -/
theorem mainRun_output_file (env : GitEnv) (argv : List String)
    (commit : String)
    (hres : (resolveCommit env
      (argv.filter (fun a => ! startsWithDash a))).1 = Except.ok commit)
    (hsucc : (mainRun env argv).exitCode = 0) :
    ((mainRun env argv).written.map Prod.fst) =
      ["commit-" ++ commit ++ "-diff.html"] ∧
    ∀ fs : String → Option Str,
      (applyWrites fs (mainRun env argv).written
        ("commit-" ++ commit ++ "-diff.html")).isSome = true ∧
      ∀ n, n ≠ "commit-" ++ commit ++ "-diff.html" →
        applyWrites fs (mainRun env argv).written n = fs n := by
  rcases hp : resolveCommit env (argv.filter (fun a => ! startsWithDash a))
    with ⟨r, calls0⟩
  rw [hp] at hres
  simp only at hres
  subst hres
  simp only [mainRun, hp] at hsucc ⊢
  cases hm : getCommitMessage env commit with
  | error e =>
    rw [hm] at hsucc
    simp at hsucc
  | ok m =>
    rw [hm] at hsucc
    cases hd : getCommitDiff env commit with
    | error e =>
      rw [hd] at hsucc
      simp at hsucc
    | ok d =>
      rw [hd] at hsucc
      cases hstat : argv.contains "--static" with
      | true =>
        rw [hstat] at hsucc
        simp only [eq_self_iff_true, if_true] at hsucc ⊢
        cases hgen : generateStaticHtmlRun env commit m.data d.data with
        | error e =>
          rw [hgen] at hsucc
          simp at hsucc
        | ok html =>
          refine ⟨rfl, fun fs => ⟨?_, fun n hn => ?_⟩⟩
          · simp [applyWrites]
          · simp [applyWrites, hn]
      | false =>
        rw [hstat] at hsucc
        simp only [Bool.false_eq_true, if_false] at hsucc ⊢
        cases hgen : generateHtmlRun env commit m.data d.data with
        | error e =>
          rw [hgen] at hsucc
          simp at hsucc
        | ok html =>
          refine ⟨rfl, fun fs => ⟨?_, fun n hn => ?_⟩⟩
          · simp [applyWrites]
          · simp [applyWrites, hn]

/-- Witness for `mainRun_output_file`: the concrete succeeding run for
reference `abc` writes exactly the file `commit-abc-diff.html`. -/
theorem mainRun_output_file_witness :
    ((mainRun envOkW ["abc"]).written.map Prod.fst) =
      ["commit-" ++ "abc" ++ "-diff.html"] :=
  (mainRun_output_file envOkW ["abc"] "abc" rfl rfl).1
